import Mathlib

/-!
Shallow embedding of the dubbing backend (`src/services/dub.service.ts`,
`src/routes/dub.route.ts`, `src/utils/temp.ts`, `src/utils/progress.ts`).

Conventions of the embedding:
* Times (segment start/end, gap durations) are rationals, standing for the
  JS numbers of the source.
* External effects (ffmpeg invocations, OpenAI calls, the file system) are
  modelled by oracles passed as function arguments and by an explicit list
  of symbolic file identifiers carried in the pipeline state.
* A possible rejection of one of the `await`ed external calls inside
  `dubVideo` is modelled by an optional `FailPoint` argument naming the one
  call site that rejects; `none` is the run in which every external call
  succeeds.
-/

namespace Dubbing

/-- Binary gender label, as in the TS union type `"male" | "female"`. -/
inductive Gender
  | male
  | female
deriving DecidableEq

/-- Emotion tags, as in the TS union `"soft" | "firm" | "neutral" | "energetic"`. -/
inductive Emotion
  | soft
  | firm
  | neutral
  | energetic
deriving DecidableEq

/-- `const maleVoices = ["onyx", "nova", "shimmer", "ballad"]` (dub.service line 16). -/
def maleVoices : List String := ["onyx", "nova", "shimmer", "ballad"]

/-- `const femaleVoices = ["alloy", "verse", "fable", "coral"]` (dub.service line 17). -/
def femaleVoices : List String := ["alloy", "verse", "fable", "coral"]

/-- `assignVoice` (dub.service lines 108-115): indexes the gender's pool at
`index % pool.length`. -/
def assignVoice (gender : Gender) (index : ℕ) : String :=
  match gender with
  | .male => maleVoices.getD (index % maleVoices.length) ""
  | .female => femaleVoices.getD (index % femaleVoices.length) ""

/-- The emotion heuristic inlined in `dubVideo` (dub.service lines 228-230):
`if (seg.text.includes("!")) emotion = "energetic"; else if
(seg.text.includes("?")) emotion = "firm";` starting from `"neutral"`.
`includes` of a one-character string is membership of that character. -/
def classifyEmotion (text : String) : Emotion :=
  if text.data.contains '!' then .energetic
  else if text.data.contains '?' then .firm
  else .neutral

/-- Outcome of the `ffmpeg -af astats` invocation inside `detectGender`
(dub.service lines 80-90): either the awaited call rejects (`failure`), or it
resolves and the regex `RMS level dB: (-?\d+\.?\d+)` extracts the given
(possibly empty) list of RMS values from the captured stderr. -/
inductive AstatsOutcome
  | failure
  | success (rmsValues : List ℚ)

/-- `detectGender` (dub.service lines 75-106).  On a resolved invocation with
at least one parsed RMS value it averages them and classifies
`avgRms < -12.5` as female, otherwise male (line 98); with no parsed value it
returns `"male"` (line 101); the `catch` arm returns `"female"` (line 104). -/
def detectGender (o : AstatsOutcome) : Gender :=
  match o with
  | .success rmsValues =>
    if rmsValues.length > 0 then
      let avgRms := rmsValues.sum / (rmsValues.length : ℚ)
      if avgRms < -(25 / 2 : ℚ) then .female else .male
    else .male
  | .failure => .female

/-- The `tonePrompt` record built inside `speak` (dub.service lines 123-128). -/
def tonePrompt : Emotion → String
  | .soft => "Speak softly and gently."
  | .firm => "Speak clearly with confidence."
  | .energetic => "Speak with lively energy."
  | .neutral => "Speak naturally."

/-- The request object passed to `openai.audio.speech.create`
(dub.service lines 130-134). -/
structure TtsRequest where
  model : String
  voice : String
  input : String
deriving DecidableEq

/-- The request `speak` sends (dub.service lines 117-137): the `tonePrompt`
record is constructed but the request carries only the fixed model, the voice
and the raw text. -/
def speakRequest (text voice : String) (emotion : Emotion) : TtsRequest :=
  let _tone := tonePrompt emotion
  { model := "gpt-4o-mini-tts", voice := voice, input := text }

/-- The bytes `speak` writes to its output file (dub.service line 136): the
body of the engine's response to the request, for an engine modelled as a
function from requests to byte lists. -/
def speakBytes (engine : TtsRequest → List ℕ) (text voice : String)
    (emotion : Emotion) : List ℕ :=
  engine (speakRequest text voice emotion)

/-- `createSilence` (dub.service lines 40-51): returns without producing a
file when `seconds <= 0`, otherwise produces a silence file of the requested
duration (`none` = no file, `some d` = a file of duration `d`). -/
def createSilence (seconds : ℚ) : Option ℚ :=
  if seconds ≤ 0 then none else some seconds

/-- The speaker key of segment `i` (dub.service line 199):
`seg.speaker || ` ``segment_${i}`` — a missing or empty (falsy) label falls
back to the synthetic per-index label. -/
def speakerKey (speaker : Option String) (i : ℕ) : String :=
  match speaker with
  | some s => if s = "" then "segment_" ++ toString i else s
  | none => "segment_" ++ toString i

/-- First-match lookup in an association list, the embedding of reading a JS
`Map` / object property (keys are inserted at most once). -/
def lookupKey (k : String) : List (String × α) → Option α
  | [] => none
  | (k', v) :: t => if k' = k then some v else lookupKey k t

/-- Key update in an association list, the embedding of `map.set` / property
assignment: replaces the first binding of the key or appends a new one. -/
def setKey (k : String) (v : α) : List (String × α) → List (String × α)
  | [] => [(k, v)]
  | (k', v') :: t => if k' = k then (k, v) :: t else (k', v') :: setKey k v t

/-- Key removal, the embedding of `map.delete`. -/
def eraseKey (k : String) (l : List (String × α)) : List (String × α) :=
  l.filter (fun p => decide (p.1 ≠ k))

/-- One transcription segment (dub.service lines 184-199): start and end
times in seconds on the source timeline, the original-language text, and the
optional speaker label supplied by the transcription engine. -/
structure Segment where
  start : ℚ
  stop : ℚ
  text : String
  speaker : Option String

/-- Symbolic identities for the temporary files one `dubVideo` run names via
`tempFile` (every name is fresh, so identities are per-call-site-per-index). -/
inductive FileId
  | extracted
  | dubbed
  | output
  | silenceClip (i : ℕ)
  | spokenClip (i : ℕ)
  | genderClip (i : ℕ)
  | concatList
deriving DecidableEq

/-- One entry of the `timeline` array (dub.service lines 177, 192, 234):
either the silence clip inserted before segment `i` with its requested
duration, or segment `i`'s synthesized speech clip with the translated text,
the assigned voice and the emotion tag passed to `speak`. -/
inductive Entry
  | silence (i : ℕ) (duration : ℚ)
  | speech (i : ℕ) (translated : String) (voice : String) (emotion : Emotion)

/-- The temporary file underlying a timeline entry. -/
def entryFile : Entry → FileId
  | .silence i _ => .silenceClip i
  | .speech i _ _ _ => .spokenClip i

/-- A record of one voice assignment (dub.service lines 223-233): the speaker
key, the segment's original text, the gender used, the rotation index read
before its increment, the returned voice, and the emotion passed to `speak`. -/
structure AssignEvent where
  key : String
  origText : String
  gender : Gender
  index : ℕ
  voice : String
  emotion : Emotion

/-- A record of one gender-detection event (dub.service lines 202-218). -/
structure Detection where
  key : String
  segIdx : ℕ
  gender : Gender

/-- The mutable state threaded through one `dubVideo` run: the `timeline`
array, the `lastEnd` cursor, the `speakerGender` and `speakerIndex` records,
the event logs of detections and voice assignments, the progress values
written so far (in write order), the set of currently existing temporary
files, and whether the output was published to `outputMap`. -/
structure DubState where
  timeline : List Entry
  lastEnd : ℚ
  speakerGender : List (String × Gender)
  speakerIndex : List (String × ℕ)
  detections : List Detection
  assigns : List AssignEvent
  progress : List ℤ
  files : List FileId
  published : Bool

/-- The empty pipeline state at entry to `dubVideo`. -/
def initState : DubState :=
  { timeline := [], lastEnd := 0, speakerGender := [], speakerIndex := []
    detections := [], assigns := [], progress := [], files := []
    published := false }

/-- The fallible `await`ed call sites of `dubVideo` whose rejection aborts the
pipeline: audio extraction, transcription, per-segment silence synthesis,
translation, gender-clip extraction and speech synthesis, then concatenation
and the final remix.  (`detectGender` itself is not listed: its body catches
its own failure.) -/
inductive FailPoint
  | extract
  | transcribe
  | silenceAt (i : ℕ)
  | translateAt (i : ℕ)
  | clipAt (i : ℕ)
  | speakAt (i : ℕ)
  | concat
  | remix
deriving DecidableEq

/-- The progress value written at the end of loop iteration `i` of `n`
(dub.service lines 237-240): `15 + Math.floor((i / n) * 55)`. -/
def segProgress (i n : ℕ) : ℤ := ((15 + i * 55 / n : ℕ) : ℤ)

/-- The tail of one loop iteration, from the voice assignment (dub.service
line 224) to the progress write (line 240), given the already-resolved
gender `g` of the segment's speaker.  The Boolean result is `true` when the
iteration aborted at `failAt`. -/
def stepTail (failAt : Option FailPoint) (n i : ℕ) (seg : Segment)
    (translated : String) (key : String) (g : Gender) (st : DubState) :
    DubState × Bool :=
  let idx := (lookupKey key st.speakerIndex).getD 0
  let voice := assignVoice g idx
  let st1 : DubState := { st with
    speakerIndex := setKey key (idx + 1) st.speakerIndex
    assigns := st.assigns ++
      [⟨key, seg.text, g, idx, voice, classifyEmotion seg.text⟩] }
  if failAt = some (FailPoint.speakAt i) then (st1, true) else
  let st2 : DubState := { st1 with
    files := st1.files ++ [FileId.spokenClip i]
    timeline := st1.timeline ++ [Entry.speech i translated voice (classifyEmotion seg.text)] }
  ({ st2 with lastEnd := seg.stop, progress := st2.progress ++ [segProgress i n] },
   false)

/-- One iteration of the `for` loop of `dubVideo` (dub.service lines
184-241) on segment `seg` with loop index `i` and segment count `n`:
silence insertion for a positive gap, translation, gender lookup or
detection (with the per-segment clip extracted and removed), then
`stepTail`. -/
def stepSeg (tr : String → String) (detect : ℕ → AstatsOutcome)
    (failAt : Option FailPoint) (n i : ℕ) (seg : Segment) (st : DubState) :
    DubState × Bool :=
  let gap := seg.start - st.lastEnd
  if gap > 0 ∧ failAt = some (FailPoint.silenceAt i) then (st, true) else
  let st1 : DubState :=
    if gap > 0 then
      { st with files := st.files ++ [FileId.silenceClip i]
                timeline := st.timeline ++ [Entry.silence i gap] }
    else st
  if failAt = some (FailPoint.translateAt i) then (st1, true) else
  let translated := tr seg.text
  let key := speakerKey seg.speaker i
  match lookupKey key st1.speakerGender with
  | some g => stepTail failAt n i seg translated key g st1
  | none =>
    if failAt = some (FailPoint.clipAt i) then (st1, true) else
    let st2 : DubState := { st1 with files := st1.files ++ [FileId.genderClip i] }
    let g := detectGender (detect i)
    let st3 : DubState := { st2 with
      speakerGender := st2.speakerGender ++ [(key, g)]
      detections := st2.detections ++ [⟨key, i, g⟩]
      files := st2.files.filter (fun f => decide (f ≠ FileId.genderClip i)) }
    stepTail failAt n i seg translated key g st3

/-- The `for` loop of `dubVideo` over the remaining segments, `i` being the
loop index of the first of them; stops early when an iteration aborts. -/
def runSegs (tr : String → String) (detect : ℕ → AstatsOutcome)
    (failAt : Option FailPoint) (n : ℕ) :
    ℕ → List Segment → DubState → DubState × Bool
  | _, [], st => (st, false)
  | i, seg :: rest, st =>
    match stepSeg tr detect failAt n i seg st with
    | (st', true) => (st', true)
    | (st', false) => runSegs tr detect failAt n (i + 1) rest st'

/-- `dubVideo` (dub.service lines 159-271), instrumented with the failure
oracle: progress checkpoints 5 and 15, audio extraction, transcription
(producing `segs`), the per-segment loop, checkpoint 75, concatenation
(which writes the list file before invoking ffmpeg and unlinks it only on
success), checkpoint 90, the remix producing the output video, checkpoint
100 and publication, then the success-path cleanup of the extracted audio,
the dubbed audio and every timeline file.  The Boolean result is `true` when
the run rejected. -/
def dubVideo (segs : List Segment) (tr : String → String)
    (detect : ℕ → AstatsOutcome) (failAt : Option FailPoint) :
    DubState × Bool :=
  let st0 : DubState := { initState with progress := [5] }
  if failAt = some FailPoint.extract then (st0, true) else
  let st1 : DubState := { st0 with
    files := [FileId.extracted]
    progress := st0.progress ++ [15] }
  if failAt = some FailPoint.transcribe then (st1, true) else
  match runSegs tr detect failAt segs.length 0 segs st1 with
  | (st, true) => (st, true)
  | (st2, false) =>
    let st3 : DubState := { st2 with
      progress := st2.progress ++ [75]
      files := st2.files ++ [FileId.concatList] }
    if failAt = some FailPoint.concat then (st3, true) else
    let st4 : DubState := { st3 with
      files := (st3.files ++ [FileId.dubbed]).filter (fun f => decide (f ≠ FileId.concatList))
      progress := st3.progress ++ [90] }
    if failAt = some FailPoint.remix then (st4, true) else
    let st5 : DubState := { st4 with
      files := st4.files ++ [FileId.output]
      progress := st4.progress ++ [100]
      published := true }
    let cleaned :=
      ((st5.files.filter (fun f => decide (f ≠ FileId.extracted))).filter
        (fun f => decide (f ≠ FileId.dubbed)))
    let final := st5.timeline.foldl
      (fun fs e => fs.filter (fun f => decide (f ≠ entryFile e))) cleaned
    ({ st5 with files := final }, false)

/-- The submission route (dub.route lines 12-22) around one `dubVideo` run:
writes progress 0 before starting the pipeline and appends the `-1` sentinel
when the run rejects.  Returns the full sequence of progress values written
for the job, in write order, and whether the run failed. -/
def jobRun (segs : List Segment) (tr : String → String)
    (detect : ℕ → AstatsOutcome) (failAt : Option FailPoint) :
    List ℤ × Bool :=
  match dubVideo segs tr detect failAt with
  | (st, failed) =>
    ((0 : ℤ) :: st.progress ++ (if failed then [(-1 : ℤ)] else []), failed)

/-- The server-side registries and the files on disk seen by the routes
(dub.route lines 5-8): `progressMap`, `outputMap` (job id to output file
path) and the set of existing files. -/
structure ServerState where
  progressMap : List (String × ℤ)
  outputMap : List (String × String)
  files : List String

/-- The value one tick of the progress stream reads (dub.route line 33):
`progressMap.get(id) ?? 0`. -/
def progressRead (progressMap : List (String × ℤ)) (id : String) : ℤ :=
  (lookupKey id progressMap).getD 0

/-- The termination condition of the progress stream (dub.route line 36):
`progress >= 100 || progress < 0`. -/
def streamDone (progress : ℤ) : Bool :=
  decide (progress ≥ 100) || decide (progress < 0)

/-- Result of the download route: a 404, or the file served under the fixed
download name. -/
inductive DownloadResult
  | notFound
  | file (path : String) (downloadName : String)
deriving DecidableEq

/-- The download route (dub.route lines 44-55): with no recorded output for
the job id it answers 404 and changes nothing; otherwise it serves the file
as `dubbed.mp4` and the completion callback unlinks the file and deletes the
`outputMap` and `progressMap` entries. -/
def downloadRoute (jobId : String) (st : ServerState) :
    DownloadResult × ServerState :=
  match lookupKey jobId st.outputMap with
  | none => (.notFound, st)
  | some f =>
    (.file f "dubbed.mp4",
     { progressMap := eraseKey jobId st.progressMap
       outputMap := eraseKey jobId st.outputMap
       files := st.files.filter (fun x => decide (x ≠ f)) })

/-- A server state with one completed job, used to instantiate `claim_C8`. -/
def sampleServerA : ServerState :=
  { progressMap := [("job1", 100)], outputMap := [("job1", "out.mp4")]
    files := ["out.mp4"] }

/-- A server state with one completed job, used to instantiate `claim_C9`. -/
def sampleServerB : ServerState :=
  { progressMap := [("jobB", 100)], outputMap := [("jobB", "outB.mp4")]
    files := ["outB.mp4"] }

/-- Shape of a timeline entry: a silence clip with its duration, or the
speech clip of segment `i`, forgetting the synthesized payload. -/
inductive Shape
  | sil (duration : ℚ)
  | sp (i : ℕ)
deriving DecidableEq

/-- The shape of a timeline entry. -/
def entryShape : Entry → Shape
  | .silence _ d => .sil d
  | .speech i _ _ _ => .sp i

/-- Stated from the claim's words (C1): walking the ordered segments with a
cursor `lastEnd`, each strictly positive gap `segment.start - lastEnd`
contributes exactly one silence entry of that duration immediately before
the segment's speech entry, a non-positive gap contributes none, and the
cursor advances to `segment.end`. -/
def timelineShapeClaim (lastEnd : ℚ) (i : ℕ) : List Segment → List Shape
  | [] => []
  | seg :: rest =>
    (if seg.start - lastEnd > 0 then [Shape.sil (seg.start - lastEnd)] else []) ++
      Shape.sp i :: timelineShapeClaim seg.stop (i + 1) rest

/-- The voice-assignment events of `st` whose speaker key is `k`, in order. -/
def assignsFor (st : DubState) (k : String) : List AssignEvent :=
  st.assigns.filter (fun e => decide (e.key = k))

/-- The gender-detection events of `st` whose speaker key is `k`, in order. -/
def detectionsFor (st : DubState) (k : String) : List Detection :=
  st.detections.filter (fun d => decide (d.key = k))

/-- The success tail of `dubVideo` after the segment loop (dub.service lines
243-270), as a state transform: checkpoint 75, concatenation (list file
written then removed on success, dubbed audio produced), checkpoint 90, the
remix output, checkpoint 100 with publication, then the unlinking of the
extracted audio, the dubbed audio and every timeline file.  `dubVideo` on
the all-successful run is proved equal to this transform applied to the
loop's final state (`dubVideo_none_eq`). -/
def finishRun (st2 : DubState) : DubState :=
  let st3 : DubState := { st2 with
    progress := st2.progress ++ [75]
    files := st2.files ++ [FileId.concatList] }
  let st4 : DubState := { st3 with
    files := (st3.files ++ [FileId.dubbed]).filter (fun f => decide (f ≠ FileId.concatList))
    progress := st3.progress ++ [90] }
  let st5 : DubState := { st4 with
    files := st4.files ++ [FileId.output]
    progress := st4.progress ++ [100]
    published := true }
  let cleaned :=
    ((st5.files.filter (fun f => decide (f ≠ FileId.extracted))).filter
      (fun f => decide (f ≠ FileId.dubbed)))
  let final := st5.timeline.foldl
    (fun fs e => fs.filter (fun f => decide (f ≠ entryFile e))) cleaned
  { st5 with files := final }

/-- The per-speaker bookkeeping invariant maintained by the segment loop:
for every speaker key, the stored rotation index equals the number of voice
assignments already made for that key; those assignments carry the indices
`0, 1, …` in order; each assignment's gender is the currently cached gender
of its key and its voice is `assignVoice` of that gender and index; a key
with no cached gender has no detection event; every key has at most one
detection event, and a detection's gender is the cached gender. -/
def loopInv (st : DubState) : Prop :=
  ∀ k : String,
    ((lookupKey k st.speakerIndex).getD 0 = (assignsFor st k).length) ∧
    ((assignsFor st k).map (fun e => e.index) =
      List.range (assignsFor st k).length) ∧
    (∀ e ∈ assignsFor st k,
      lookupKey k st.speakerGender = some e.gender ∧
      e.voice = assignVoice e.gender e.index) ∧
    (lookupKey k st.speakerGender = none → detectionsFor st k = []) ∧
    ((detectionsFor st k).length ≤ 1) ∧
    (∀ d ∈ detectionsFor st k, lookupKey k st.speakerGender = some d.gender)

/-! ### Association-list lemmas -/

@[simp]
theorem lookupKey_nil (k : String) : lookupKey k ([] : List (String × α)) = none :=
  rfl

theorem lookupKey_cons (k k' : String) (v : α) (t : List (String × α)) :
    lookupKey k ((k', v) :: t) = if k' = k then some v else lookupKey k t :=
  rfl

@[simp]
theorem lookupKey_eraseKey (k : String) (l : List (String × α)) :
    lookupKey k (eraseKey k l) = none := by
  induction l with
  | nil => rfl
  | cons p t ih =>
    obtain ⟨a, b⟩ := p
    by_cases h : a = k
    · simpa [eraseKey, h] using ih
    · simpa [eraseKey, lookupKey_cons, h] using ih

theorem lookupKey_append_of_none (k : String) {l : List (String × α)}
    (l' : List (String × α)) (h : lookupKey k l = none) :
    lookupKey k (l ++ l') = lookupKey k l' := by
  induction l with
  | nil => simp
  | cons p t ih =>
    obtain ⟨a, b⟩ := p
    by_cases ha : a = k
    · simp [lookupKey_cons, ha] at h
    · rw [lookupKey_cons, if_neg ha] at h
      simpa [lookupKey_cons, ha] using ih h

theorem lookupKey_append_of_some (k : String) {l : List (String × α)}
    (l' : List (String × α)) {v : α} (h : lookupKey k l = some v) :
    lookupKey k (l ++ l') = some v := by
  induction l with
  | nil => simp [lookupKey] at h
  | cons p t ih =>
    obtain ⟨a, b⟩ := p
    by_cases ha : a = k
    · rw [lookupKey_cons, if_pos ha] at h
      simp [lookupKey_cons, ha, h]
    · rw [lookupKey_cons, if_neg ha] at h
      simpa [lookupKey_cons, ha] using ih h

@[simp]
theorem lookupKey_setKey_self (k : String) (v : α) (l : List (String × α)) :
    lookupKey k (setKey k v l) = some v := by
  induction l with
  | nil => simp [setKey, lookupKey_cons]
  | cons p t ih =>
    obtain ⟨a, b⟩ := p
    by_cases ha : a = k
    · simp [setKey, ha, lookupKey_cons]
    · simpa [setKey, ha, lookupKey_cons] using ih

theorem lookupKey_setKey_other {k k' : String} (v : α) (l : List (String × α))
    (h : k' ≠ k) : lookupKey k (setKey k' v l) = lookupKey k l := by
  induction l with
  | nil => simp [setKey, lookupKey_cons, h]
  | cons p t ih =>
    obtain ⟨a, b⟩ := p
    by_cases ha : a = k'
    · simp [setKey, ha, lookupKey_cons, h]
    · simp [setKey, ha, lookupKey_cons, ih]

/-! ### The easy route-level claims -/

/-- C3 (recording the code bug): `detectGender` is total — the modelled
failure outcome is mapped to a gender label, not re-thrown — but the two
fallback labels diverge: the catch arm returns `female` while a resolved
invocation with no parseable RMS value returns `male`, contradicting the
claim (and the catch arm's own "defaulting to male" log message). -/
theorem claim_C3 :
    detectGender AstatsOutcome.failure = Gender.female ∧
    detectGender (AstatsOutcome.success []) = Gender.male ∧
    detectGender AstatsOutcome.failure ≠ detectGender (AstatsOutcome.success []) := by
  refine ⟨rfl, rfl, ?_⟩
  decide

/-- C10: the synthesis request and the bytes written to the output file do
not depend on the emotion argument of `speak`: for equal text, voice and
engine, any two emotion tags yield the identical request and identical
output bytes. -/
theorem claim_C10 (engine : TtsRequest → List ℕ) (text voice : String)
    (e₁ e₂ : Emotion) :
    speakRequest text voice e₁ = speakRequest text voice e₂ ∧
    speakBytes engine text voice e₁ = speakBytes engine text voice e₂ :=
  ⟨rfl, rfl⟩

/-- C8: the download route answers 404 and leaves the state unchanged when
the job has no recorded output; on a recorded output it serves the file as
`dubbed.mp4` and retires the output entry, the progress entry and the file
itself; and a second download for the same job id — after any first download
— answers 404. -/
theorem claim_C8 (st : ServerState) (jobId : String) :
    (lookupKey jobId st.outputMap = none →
      downloadRoute jobId st = (DownloadResult.notFound, st)) ∧
    (∀ f, lookupKey jobId st.outputMap = some f →
      (downloadRoute jobId st).1 = DownloadResult.file f "dubbed.mp4" ∧
      lookupKey jobId (downloadRoute jobId st).2.outputMap = none ∧
      lookupKey jobId (downloadRoute jobId st).2.progressMap = none ∧
      f ∉ (downloadRoute jobId st).2.files) ∧
    (downloadRoute jobId (downloadRoute jobId st).2).1 = DownloadResult.notFound := by
  refine ⟨fun h => by simp [downloadRoute, h], fun f h => ?_, ?_⟩
  · refine ⟨by simp [downloadRoute, h], by simp [downloadRoute, h], by simp [downloadRoute, h], ?_⟩
    simp [downloadRoute, h, List.mem_filter]
  · cases h : lookupKey jobId st.outputMap with
    | none => simp [downloadRoute, h]
    | some f => simp [downloadRoute, h]

/-- Witness for C8 at a concrete state: the first download of `job1` serves
the file and the second answers 404. -/
theorem claim_C8_witness :
    (downloadRoute "job1" sampleServerA).1 = DownloadResult.file "out.mp4" "dubbed.mp4" ∧
    (downloadRoute "job1" (downloadRoute "job1" sampleServerA).2).1 =
      DownloadResult.notFound :=
  ⟨((claim_C8 sampleServerA "job1").2.1 "out.mp4" rfl).1,
   (claim_C8 sampleServerA "job1").2.2⟩

/-- C9: a progress poll for a job id absent from the progress registry reads
`0` via the `?? 0` fallback — the same value as a freshly created job — and
`0` satisfies neither arm of the stream's termination test; in particular a
job id retired by a successful download reads `0` again afterwards. -/
theorem claim_C9 (m : List (String × ℤ)) (id : String) (st : ServerState) :
    (lookupKey id m = none →
      progressRead m id = 0 ∧ streamDone (progressRead m id) = false) ∧
    (∀ f, lookupKey id st.outputMap = some f →
      progressRead (downloadRoute id st).2.progressMap id = 0 ∧
      streamDone (progressRead (downloadRoute id st).2.progressMap id) = false) := by
  constructor
  · intro h
    simp [progressRead, h, streamDone]
  · intro f h
    simp [downloadRoute, h, progressRead, streamDone]

/-- Witness for C9 at concrete inputs: an unknown id reads `0` and does not
terminate the stream, and `jobB` reads `0` again after its download. -/
theorem claim_C9_witness :
    (progressRead [] "ghost" = 0 ∧ streamDone (progressRead [] "ghost") = false) ∧
    (progressRead (downloadRoute "jobB" sampleServerB).2.progressMap "jobB" = 0 ∧
      streamDone (progressRead (downloadRoute "jobB" sampleServerB).2.progressMap "jobB") =
        false) :=
  ⟨(claim_C9 [] "ghost" sampleServerB).1 rfl,
   (claim_C9 [] "jobB" sampleServerB).2 "outB.mp4" rfl⟩


/-! ### Success-path characterization of one loop iteration -/

theorem stepTail_none_snd (n i : ℕ) (seg : Segment) (translated key : String)
    (g : Gender) (st : DubState) :
    (stepTail none n i seg translated key g st).2 = false := by
  simp [stepTail]

theorem stepTail_none_fst (n i : ℕ) (seg : Segment) (translated key : String)
    (g : Gender) (st : DubState) :
    (stepTail none n i seg translated key g st).1 =
      { st with
        speakerIndex :=
          setKey key ((lookupKey key st.speakerIndex).getD 0 + 1) st.speakerIndex
        assigns := st.assigns ++
          [⟨key, seg.text, g, (lookupKey key st.speakerIndex).getD 0,
            assignVoice g ((lookupKey key st.speakerIndex).getD 0),
            classifyEmotion seg.text⟩]
        files := st.files ++ [FileId.spokenClip i]
        timeline := st.timeline ++
          [Entry.speech i translated
            (assignVoice g ((lookupKey key st.speakerIndex).getD 0))
            (classifyEmotion seg.text)]
        lastEnd := seg.stop
        progress := st.progress ++ [segProgress i n] } := by
  simp [stepTail]

theorem stepSeg_none_snd (tr : String → String) (detect : ℕ → AstatsOutcome)
    (n i : ℕ) (seg : Segment) (st : DubState) :
    (stepSeg tr detect none n i seg st).2 = false := by
  unfold stepSeg
  simp only [reduceCtorEq, and_false, if_false, ite_false]
  split
  · exact stepTail_none_snd _ _ _ _ _ _ _
  · simp [stepTail_none_snd]

theorem stepSeg_none_lastEnd (tr : String → String) (detect : ℕ → AstatsOutcome)
    (n i : ℕ) (seg : Segment) (st : DubState) :
    (stepSeg tr detect none n i seg st).1.lastEnd = seg.stop := by
  unfold stepSeg
  simp only [reduceCtorEq, and_false, if_false, ite_false]
  split
  · rw [stepTail_none_fst]
  · rw [stepTail_none_fst]

theorem stepSeg_none_progress (tr : String → String) (detect : ℕ → AstatsOutcome)
    (n i : ℕ) (seg : Segment) (st : DubState) :
    (stepSeg tr detect none n i seg st).1.progress =
      st.progress ++ [segProgress i n] := by
  unfold stepSeg
  simp only [reduceCtorEq, and_false, if_false, ite_false]
  split
  · rw [stepTail_none_fst]
    by_cases hgap : seg.start - st.lastEnd > 0 <;> simp [hgap]
  · rw [stepTail_none_fst]
    by_cases hgap : seg.start - st.lastEnd > 0 <;> simp [hgap]

theorem stepSeg_none_timelineShape (tr : String → String)
    (detect : ℕ → AstatsOutcome) (n i : ℕ) (seg : Segment) (st : DubState) :
    ((stepSeg tr detect none n i seg st).1.timeline).map entryShape =
      st.timeline.map entryShape ++
        ((if seg.start - st.lastEnd > 0 then [Shape.sil (seg.start - st.lastEnd)]
          else []) ++ [Shape.sp i]) := by
  unfold stepSeg
  simp only [reduceCtorEq, and_false, if_false, ite_false]
  split
  · rw [stepTail_none_fst]
    by_cases hgap : seg.start - st.lastEnd > 0 <;> simp [hgap, entryShape]
  · rw [stepTail_none_fst]
    by_cases hgap : seg.start - st.lastEnd > 0 <;> simp [hgap, entryShape]

/-! ### Success-path lemmas for the whole loop -/

theorem runSegs_none_cons (tr : String → String) (detect : ℕ → AstatsOutcome)
    (n i : ℕ) (seg : Segment) (rest : List Segment) (st : DubState) :
    runSegs tr detect none n i (seg :: rest) st =
      runSegs tr detect none n (i + 1) rest (stepSeg tr detect none n i seg st).1 := by
  cases hs : stepSeg tr detect none n i seg st with
  | mk st' b =>
    have h := stepSeg_none_snd tr detect n i seg st
    rw [hs] at h
    simp only at h
    subst h
    conv_lhs => rw [runSegs]
    rw [hs]

theorem runSegs_none_snd (tr : String → String) (detect : ℕ → AstatsOutcome)
    (n : ℕ) :
    ∀ (l : List Segment) (i : ℕ) (st : DubState),
      (runSegs tr detect none n i l st).2 = false := by
  intro l
  induction l with
  | nil => intro i st; rfl
  | cons seg rest ih =>
    intro i st
    rw [runSegs_none_cons]
    exact ih _ _

theorem runSegs_none_timelineShape (tr : String → String)
    (detect : ℕ → AstatsOutcome) (n : ℕ) :
    ∀ (l : List Segment) (i : ℕ) (st : DubState),
      ((runSegs tr detect none n i l st).1.timeline).map entryShape =
        st.timeline.map entryShape ++ timelineShapeClaim st.lastEnd i l := by
  intro l
  induction l with
  | nil => intro i st; simp [runSegs, timelineShapeClaim]
  | cons seg rest ih =>
    intro i st
    rw [runSegs_none_cons, ih, stepSeg_none_timelineShape, stepSeg_none_lastEnd]
    simp [timelineShapeClaim]

/-- C1: on a fully successful run, the timeline built by `dubVideo` is, shape
for shape, exactly the chronological interleaving described by the claim:
one silence entry of duration `segment.start - lastEnd` immediately before
segment `i`'s speech entry whenever that gap is strictly positive, no
silence entry for a zero or negative gap, with the cursor starting at 0 and
advancing to each segment's end. -/
theorem claim_C1 (segs : List Segment) (tr : String → String)
    (detect : ℕ → AstatsOutcome) :
    ((dubVideo segs tr detect none).1.timeline).map entryShape =
      timelineShapeClaim 0 0 segs := by
  have hsnd := runSegs_none_snd tr detect segs.length segs 0
    { initState with
      files := [FileId.extracted]
      progress := [5] ++ [15] }
  have hshape := runSegs_none_timelineShape tr detect segs.length segs 0
    { initState with
      files := [FileId.extracted]
      progress := [5] ++ [15] }
  unfold dubVideo
  simp only [reduceCtorEq, if_false, ite_false]
  cases hr : runSegs tr detect none segs.length 0 segs
    { initState with
      files := [FileId.extracted]
      progress := [5] ++ [15] } with
  | mk st2 b =>
    rw [hr] at hsnd hshape
    simp only at hsnd
    subst hsnd
    simp only
    simpa [initState, timelineShapeClaim] using hshape


/-! ### Master characterization of the all-successful run -/

theorem dubVideo_none_eq (segs : List Segment) (tr : String → String)
    (detect : ℕ → AstatsOutcome) :
    dubVideo segs tr detect none =
      (finishRun (runSegs tr detect none segs.length 0 segs
        { initState with
          files := [FileId.extracted]
          progress := [5] ++ [15] }).1, false) := by
  unfold dubVideo
  simp only [reduceCtorEq, if_false, ite_false]
  cases hr : runSegs tr detect none segs.length 0 segs
      { initState with
        files := [FileId.extracted]
        progress := [5] ++ [15] } with
  | mk st2 b =>
    have h := runSegs_none_snd tr detect segs.length segs 0
      { initState with
        files := [FileId.extracted]
        progress := [5] ++ [15] }
    rw [hr] at h
    simp only at h
    subst h
    simp [finishRun]

/-! ### C6: the emotion heuristic over the whole run -/

theorem stepSeg_none_assignsProj (tr : String → String)
    (detect : ℕ → AstatsOutcome) (n i : ℕ) (seg : Segment) (st : DubState) :
    ((stepSeg tr detect none n i seg st).1.assigns).map
        (fun e => (e.origText, e.emotion)) =
      st.assigns.map (fun e => (e.origText, e.emotion)) ++
        [(seg.text, classifyEmotion seg.text)] := by
  unfold stepSeg
  simp only [reduceCtorEq, and_false, if_false, ite_false]
  split
  · rw [stepTail_none_fst]
    by_cases hgap : seg.start - st.lastEnd > 0 <;> simp [hgap]
  · rw [stepTail_none_fst]
    by_cases hgap : seg.start - st.lastEnd > 0 <;> simp [hgap]

theorem runSegs_none_assignsProj (tr : String → String)
    (detect : ℕ → AstatsOutcome) (n : ℕ) :
    ∀ (l : List Segment) (i : ℕ) (st : DubState),
      ((runSegs tr detect none n i l st).1.assigns).map
          (fun e => (e.origText, e.emotion)) =
        st.assigns.map (fun e => (e.origText, e.emotion)) ++
          l.map (fun s => (s.text, classifyEmotion s.text)) := by
  intro l
  induction l with
  | nil => intro i st; simp [runSegs]
  | cons seg rest ih =>
    intro i st
    rw [runSegs_none_cons, ih, stepSeg_none_assignsProj]
    simp

/-- C6: over a successful run, the per-segment voice-assignment events pair
each segment's original text with the emotion passed to synthesis, and that
emotion is exactly the claimed rule on the original (untranslated) text:
energetic when it contains `!`, else firm when it contains `?`, else
neutral.  The right-hand side mentions only the segments, not the
translation oracle, so the emotion is computed before (and independently
of) translation. -/
theorem claim_C6 (segs : List Segment) (tr : String → String)
    (detect : ℕ → AstatsOutcome) :
    ((dubVideo segs tr detect none).1.assigns).map
        (fun e => (e.origText, e.emotion)) =
      segs.map (fun s => (s.text,
        if s.text.data.contains '!' then Emotion.energetic
        else if s.text.data.contains '?' then Emotion.firm
        else Emotion.neutral)) := by
  rw [dubVideo_none_eq]
  simp only [finishRun]
  rw [runSegs_none_assignsProj]
  simp [initState, classifyEmotion]


/-! ### C5: progress values and their monotonicity -/

theorem segProgress_mono (n i : ℕ) : segProgress i n ≤ segProgress (i + 1) n := by
  unfold segProgress
  have h : i * 55 / n ≤ (i + 1) * 55 / n :=
    Nat.div_le_div_right (Nat.mul_le_mul_right _ (Nat.le_succ i))
  omega

theorem segProgress_zero (n : ℕ) : segProgress 0 n = 15 := by
  simp [segProgress]

theorem segProgress_bounds {i n : ℕ} (h : i < n) :
    15 ≤ segProgress i n ∧ segProgress i n ≤ 69 := by
  have hn : 0 < n := Nat.lt_of_le_of_lt (Nat.zero_le i) h
  have h1 : i * 55 / n < 55 := by
    rw [Nat.div_lt_iff_lt_mul hn]
    omega
  unfold segProgress
  constructor
  · exact_mod_cast Nat.le_add_right 15 (i * 55 / n)
  · have h2 : 15 + i * 55 / n ≤ 69 := by omega
    exact_mod_cast h2

theorem chain_map_range (f : ℕ → ℤ) (hf : ∀ i, f i ≤ f (i + 1)) :
    ∀ (len s : ℕ), List.Chain' (fun a b => a ≤ b) ((List.range' s len).map f) := by
  intro len
  induction len with
  | zero => intro s; simp
  | succ m ih =>
    intro s
    rw [List.range'_succ, List.map_cons]
    cases m with
    | zero => simp
    | succ m' =>
      rw [List.chain'_cons']
      constructor
      · intro y hy
        rw [List.range'_succ, List.map_cons] at hy
        simp at hy
        rw [← hy]
        exact hf s
      · exact ih (s + 1)

theorem runSegs_none_progress (tr : String → String)
    (detect : ℕ → AstatsOutcome) (n : ℕ) :
    ∀ (l : List Segment) (i : ℕ) (st : DubState),
      (runSegs tr detect none n i l st).1.progress =
        st.progress ++ (List.range' i l.length).map (fun j => segProgress j n) := by
  intro l
  induction l with
  | nil => intro i st; simp [runSegs]
  | cons seg rest ih =>
    intro i st
    rw [runSegs_none_cons, ih, stepSeg_none_progress]
    simp [List.range'_succ]

theorem dubVideo_none_progress (segs : List Segment) (tr : String → String)
    (detect : ℕ → AstatsOutcome) :
    (dubVideo segs tr detect none).1.progress =
      [5, 15] ++ (List.range' 0 segs.length).map (fun j => segProgress j segs.length) ++
        [75, 90, 100] := by
  rw [dubVideo_none_eq]
  simp only [finishRun]
  rw [runSegs_none_progress]
  simp [initState]

theorem jobRun_none_progress (segs : List Segment) (tr : String → String)
    (detect : ℕ → AstatsOutcome) :
    (jobRun segs tr detect none).1 = 0 :: (dubVideo segs tr detect none).1.progress ∧
    (jobRun segs tr detect none).2 = false := by
  unfold jobRun
  rw [dubVideo_none_eq]
  simp


theorem chain_progressList (n : ℕ) :
    List.Chain' (fun a b => a ≤ b)
      (0 :: 5 :: 15 ::
        ((List.range' 0 n).map (fun i => segProgress i n) ++ [75, 90, 100])) := by
  rw [List.chain'_cons', List.chain'_cons', List.chain'_cons']
  refine ⟨by norm_num, by norm_num, ?_, ?_⟩
  · intro y hy
    cases n with
    | zero => simp at hy; omega
    | succ m =>
      rw [List.range'_succ, List.map_cons] at hy
      simp at hy
      rw [← hy, segProgress_zero]
  · rw [List.chain'_append]
    refine ⟨chain_map_range _ (fun i => segProgress_mono n i) n 0, ?_, ?_⟩
    · norm_num [List.chain'_cons, List.chain'_singleton]
    · intro x hx y hy
      have hx' := List.mem_of_mem_getLast? hx
      simp only [List.mem_map, List.mem_range'_1] at hx'
      obtain ⟨j, hj, rfl⟩ := hx'
      have hb := segProgress_bounds (by omega : j < n)
      simp at hy
      omega

theorem stepSeg_progress_cases (tr : String → String)
    (detect : ℕ → AstatsOutcome) (failAt : Option FailPoint) (n i : ℕ)
    (seg : Segment) (st : DubState) :
    (stepSeg tr detect failAt n i seg st).1.progress = st.progress ∨
    (stepSeg tr detect failAt n i seg st).1.progress =
      st.progress ++ [segProgress i n] := by
  unfold stepSeg stepTail
  by_cases hgap : seg.start - st.lastEnd > 0 <;>
    simp only [hgap, ite_true, ite_false, true_and, false_and, if_false] <;>
    (repeat' split) <;> simp


theorem runSegs_progress_bound (tr : String → String)
    (detect : ℕ → AstatsOutcome) (failAt : Option FailPoint) (n : ℕ) :
    ∀ (l : List Segment) (i : ℕ) (st : DubState), i + l.length ≤ n →
      (∀ v ∈ st.progress, 0 ≤ v ∧ v ≤ 100) →
      ∀ v ∈ (runSegs tr detect failAt n i l st).1.progress, 0 ≤ v ∧ v ≤ 100 := by
  intro l
  induction l with
  | nil => intro i st _ hst; simpa [runSegs] using hst
  | cons seg rest ih =>
    intro i st hlen hst
    have hstep : ∀ v ∈ (stepSeg tr detect failAt n i seg st).1.progress,
        0 ≤ v ∧ v ≤ 100 := by
      rcases stepSeg_progress_cases tr detect failAt n i seg st with h | h <;> rw [h]
      · exact hst
      · intro v hv
        rcases List.mem_append.mp hv with hv | hv
        · exact hst v hv
        · have hi : i < n := by simp at hlen; omega
          have hb := segProgress_bounds hi
          simp at hv
          subst hv
          omega
    rw [runSegs]
    cases hs : stepSeg tr detect failAt n i seg st with
    | mk st' b =>
      rw [hs] at hstep
      simp only at hstep
      cases b
      · simp only
        exact ih (i + 1) st' (by simp at hlen ⊢; omega) hstep
      · simp only
        exact hstep

theorem dubVideo_progress_bound (segs : List Segment) (tr : String → String)
    (detect : ℕ → AstatsOutcome) (failAt : Option FailPoint) :
    ∀ v ∈ (dubVideo segs tr detect failAt).1.progress, 0 ≤ v ∧ v ≤ 100 := by
  have hrun := runSegs_progress_bound tr detect failAt segs.length segs 0
    { initState with
      files := [FileId.extracted]
      progress := [5] ++ [15] }
    (by simp)
    (by intro v hv; simp [initState] at hv; rcases hv with h | h <;> subst h <;> omega)
  unfold dubVideo
  split
  · intro v hv
    simp [initState] at hv
    omega
  split
  · intro v hv
    simp [initState] at hv
    rcases hv with h | h <;> omega
  simp only [reduceCtorEq, if_false, ite_false]
  cases hr : runSegs tr detect failAt segs.length 0 segs
      { initState with
        files := [FileId.extracted]
        progress := [5] ++ [15] } with
  | mk st b =>
    rw [hr] at hrun
    simp only at hrun
    cases b
    · simp only
      split
      · intro v hv
        simp at hv
        rcases hv with hv | hv
        · exact hrun v hv
        · omega
      split
      · intro v hv
        simp at hv
        rcases hv with hv | hv | hv
        · exact hrun v hv
        · omega
        · omega
      · intro v hv
        simp at hv
        rcases hv with hv | hv | hv | hv
        · exact hrun v hv
        · omega
        · omega
        · omega
    · simp only
      exact hrun


/-- C5: the progress writes of a job.  On the all-successful run the full
write sequence is `0, 5, 15`, the per-segment values
`15 + floor((i / totalSegments) * 55)`, then `75, 90, 100`; it is
monotonically non-decreasing, starts at 0, ends at 100 and stays within
`[0, 100]`.  Under any single failing call site, every written value still
lies in `[0, 100]` except the final failure sentinel `-1`, and a failed run's
last write is exactly `-1`. -/
theorem claim_C5 (segs : List Segment) (tr : String → String)
    (detect : ℕ → AstatsOutcome) :
    (jobRun segs tr detect none).1 =
      0 :: 5 :: 15 ::
        ((List.range' 0 segs.length).map (fun i => segProgress i segs.length) ++
          [75, 90, 100]) ∧
    List.Chain' (fun a b => a ≤ b) (jobRun segs tr detect none).1 ∧
    ((jobRun segs tr detect none).1.all
      (fun v => decide (0 ≤ v) && decide (v ≤ 100)) = true) ∧
    (∀ fp, ((jobRun segs tr detect (some fp)).1.all
      (fun v => (decide (0 ≤ v) && decide (v ≤ 100)) || decide (v = -1)) = true)) ∧
    (∀ fp, (jobRun segs tr detect (some fp)).2 = true →
      (jobRun segs tr detect (some fp)).1.getLast? = some (-1)) := by
  have hA : (jobRun segs tr detect none).1 =
      0 :: 5 :: 15 ::
        ((List.range' 0 segs.length).map (fun i => segProgress i segs.length) ++
          [75, 90, 100]) := by
    rw [(jobRun_none_progress segs tr detect).1, dubVideo_none_progress]
    simp
  refine ⟨hA, ?_, ?_, ?_, ?_⟩
  · rw [hA]
    exact chain_progressList segs.length
  · rw [hA, List.all_eq_true]
    intro v hv
    simp only [List.mem_cons, List.mem_append, List.mem_map, List.mem_range'_1] at hv
    rw [Bool.and_eq_true, decide_eq_true_eq, decide_eq_true_eq]
    rcases hv with rfl | rfl | rfl | ⟨⟨j, hj, rfl⟩ | hv⟩
    · omega
    · omega
    · omega
    · have := segProgress_bounds (by omega : j < segs.length)
      omega
    · simp at hv
      rcases hv with rfl | rfl | rfl <;> omega
  · intro fp
    have hbound := dubVideo_progress_bound segs tr detect (some fp)
    rw [List.all_eq_true]
    intro v hv
    unfold jobRun at hv
    rw [Bool.or_eq_true, Bool.and_eq_true, decide_eq_true_eq, decide_eq_true_eq,
      decide_eq_true_eq]
    cases hd : dubVideo segs tr detect (some fp) with
    | mk st failed =>
      rw [hd] at hv hbound
      simp only at hv hbound
      cases failed <;> simp at hv
      · rcases hv with rfl | hv
        · omega
        · have := hbound v hv
          omega
      · rcases hv with rfl | hv | rfl
        · omega
        · have := hbound v hv
          omega
        · omega
  · intro fp h
    unfold jobRun at h ⊢
    cases hd : dubVideo segs tr detect (some fp) with
    | mk st failed =>
      rw [hd] at h
      simp only at h
      subst h
      simp only [if_true, ite_true]
      rw [List.getLast?_concat]

/-- Witness for C5 at a concrete failing run: with no segments and the audio
extraction rejecting, the job fails and its last progress write is `-1`. -/
theorem claim_C5_witness :
    (jobRun [] (fun s => s) (fun _ => AstatsOutcome.success [])
      (some FailPoint.extract)).2 = true ∧
    (jobRun [] (fun s => s) (fun _ => AstatsOutcome.success [])
      (some FailPoint.extract)).1.getLast? = some (-1) :=
  ⟨rfl,
   (claim_C5 [] (fun s => s) (fun _ => AstatsOutcome.success [])).2.2.2.2
     FailPoint.extract rfl⟩


/-! ### C2 and C7: the speaker-profile invariant -/

theorem lookupKey_append_single_other {k key : String} (hne : key ≠ k)
    (g : α) (l : List (String × α)) :
    lookupKey k (l ++ [(key, g)]) = lookupKey k l := by
  cases hl : lookupKey k l with
  | some v => exact lookupKey_append_of_some k _ hl
  | none =>
    rw [lookupKey_append_of_none k _ hl, lookupKey_cons, if_neg hne]
    rfl

theorem assignsFor_append (st : DubState) (ev : AssignEvent) (k : String)
    (F : List FileId) (T : List Entry) (SI : List (String × ℕ))
    (SG : List (String × Gender)) (D : List Detection) (P : List ℤ) (q : ℚ)
    (b : Bool) :
    assignsFor
      { timeline := T, lastEnd := q, speakerGender := SG, speakerIndex := SI
        detections := D, assigns := st.assigns ++ [ev], progress := P
        files := F, published := b } k =
      assignsFor st k ++ (if ev.key = k then [ev] else []) := by
  simp only [assignsFor, List.filter_append]
  by_cases h : ev.key = k <;> simp [h]


theorem loopInv_stepTail (n i : ℕ) (seg : Segment) (translated key : String)
    (g : Gender) (M st : DubState)
    (hMg : M.speakerGender = st.speakerGender)
    (hMd : M.detections = st.detections)
    (hMi : M.speakerIndex = st.speakerIndex)
    (hMa : M.assigns = st.assigns)
    (h : loopInv st)
    (hg : lookupKey key st.speakerGender = some g) :
    loopInv (stepTail none n i seg translated key g M).1 := by
  rw [stepTail_none_fst]
  simp only [hMg, hMd, hMi, hMa]
  intro k
  obtain ⟨h1, h2, h3, h4, h5, h6⟩ := h k
  by_cases hk : key = k
  · subst hk
    simp only [assignsFor, detectionsFor, List.filter_append] at h1 h2 h3 h4 h5 h6 ⊢
    refine ⟨?_, ?_, ?_, ?_, ?_, ?_⟩
    · simp [lookupKey_setKey_self, h1]
    · simp only [List.map_append, h2, List.length_append]
      rw [h1]
      simp [List.range_succ]
    · intro e he
      simp only [List.mem_append] at he
      rcases he with he | he
      · exact h3 e he
      · simp at he
        subst he
        exact ⟨hg, rfl⟩
    · intro hnone
      rw [hg] at hnone
      exact absurd hnone (by simp)
    · exact h5
    · exact h6
  · simp only [assignsFor, detectionsFor, List.filter_append] at h1 h2 h3 h4 h5 h6 ⊢
    have hev : (decide (key = k)) = false := by simp [hk]
    refine ⟨?_, ?_, ?_, ?_, ?_, ?_⟩
    · rw [lookupKey_setKey_other _ _ hk]
      simpa [hev] using h1
    · simpa [hev] using h2
    · intro e he
      simp only [hev, List.filter_cons, List.filter_nil, Bool.false_eq_true,
        if_false, List.append_nil] at he
      exact h3 e he
    · intro hnone
      exact h4 hnone
    · exact h5
    · exact h6


theorem loopInv_stepTail_new (n i : ℕ) (seg : Segment) (translated key : String)
    (g : Gender) (M st : DubState)
    (hMg : M.speakerGender = st.speakerGender ++ [(key, g)])
    (hMd : M.detections = st.detections ++ [⟨key, i, g⟩])
    (hMi : M.speakerIndex = st.speakerIndex)
    (hMa : M.assigns = st.assigns)
    (h : loopInv st)
    (hg : lookupKey key st.speakerGender = none) :
    loopInv (stepTail none n i seg translated key g M).1 := by
  rw [stepTail_none_fst]
  simp only [hMg, hMd, hMi, hMa]
  intro k
  obtain ⟨h1, h2, h3, h4, h5, h6⟩ := h k
  by_cases hk : key = k
  · subst hk
    have hA : assignsFor st key = [] := by
      cases hA : assignsFor st key with
      | nil => rfl
      | cons e t =>
        have hmem := h3 e (hA ▸ List.mem_cons_self e t)
        rw [hg] at hmem
        exact absurd hmem.1 (by simp)
    have hD : detectionsFor st key = [] := h4 hg
    have hlook : lookupKey key (st.speakerGender ++ [(key, g)]) = some g := by
      rw [lookupKey_append_of_none _ _ hg, lookupKey_cons, if_pos rfl]
    have hidx : (lookupKey key st.speakerIndex).getD 0 = 0 := by
      rw [h1, hA]
      rfl
    simp only [assignsFor, detectionsFor, List.filter_append] at hA hD ⊢
    refine ⟨?_, ?_, ?_, ?_, ?_, ?_⟩
    · simp [lookupKey_setKey_self, hA, hidx]
    · rw [hA]
      simp [hidx]
      rfl
    · intro e he
      simp only [hA, List.nil_append] at he
      simp at he
      subst he
      exact ⟨hlook, rfl⟩
    · intro hnone
      rw [hlook] at hnone
      exact absurd hnone (by simp)
    · simp [hD]
    · intro d hd
      simp only [hD, List.nil_append] at hd
      simp at hd
      subst hd
      exact hlook
  · have hlook : lookupKey k (st.speakerGender ++ [(key, g)]) =
        lookupKey k st.speakerGender :=
      lookupKey_append_single_other hk g _
    have hev : (decide (key = k)) = false := by simp [hk]
    simp only [assignsFor, detectionsFor, List.filter_append, List.filter_cons,
      List.filter_nil, hev, Bool.false_eq_true, if_false, List.append_nil] at h1 h2 h3 h4 h5 h6 ⊢
    refine ⟨?_, ?_, ?_, ?_, ?_, ?_⟩
    · rw [lookupKey_setKey_other _ _ hk]
      exact h1
    · exact h2
    · intro e he
      rw [hlook]
      exact h3 e he
    · intro hnone
      rw [hlook] at hnone
      exact h4 hnone
    · exact h5
    · intro d hd
      rw [hlook]
      exact h6 d hd


theorem stepSeg_none_inv (tr : String → String) (detect : ℕ → AstatsOutcome)
    (n i : ℕ) (seg : Segment) (st : DubState) (h : loopInv st) :
    loopInv (stepSeg tr detect none n i seg st).1 := by
  unfold stepSeg
  simp only [reduceCtorEq, and_false, if_false, ite_false]
  by_cases hgap : seg.start - st.lastEnd > 0 <;>
    simp only [hgap, ite_true, ite_false] <;>
    split
  case pos.h_1 g hg =>
    exact loopInv_stepTail n i seg _ _ g _ st rfl rfl rfl rfl h hg
  case pos.h_2 hg =>
    exact loopInv_stepTail_new n i seg _ _ _ _ st rfl rfl rfl rfl h hg
  case neg.h_1 g hg =>
    exact loopInv_stepTail n i seg _ _ g _ st rfl rfl rfl rfl h hg
  case neg.h_2 hg =>
    exact loopInv_stepTail_new n i seg _ _ _ _ st rfl rfl rfl rfl h hg

theorem runSegs_none_inv (tr : String → String) (detect : ℕ → AstatsOutcome)
    (n : ℕ) :
    ∀ (l : List Segment) (i : ℕ) (st : DubState), loopInv st →
      loopInv (runSegs tr detect none n i l st).1 := by
  intro l
  induction l with
  | nil => intro i st h; simpa [runSegs] using h
  | cons seg rest ih =>
    intro i st h
    rw [runSegs_none_cons]
    exact ih _ _ (stepSeg_none_inv tr detect n i seg st h)

theorem loopInv_init :
    loopInv { initState with
      files := [FileId.extracted]
      progress := [5] ++ [15] } := by
  intro k
  refine ⟨?_, ?_, ?_, ?_, ?_, ?_⟩ <;>
    simp [assignsFor, detectionsFor, initState]

theorem dubVideo_none_inv (segs : List Segment) (tr : String → String)
    (detect : ℕ → AstatsOutcome) :
    loopInv (dubVideo segs tr detect none).1 := by
  rw [dubVideo_none_eq]
  exact runSegs_none_inv tr detect segs.length segs 0 _ loopInv_init


/-- C2: for every speaker key, the voices assigned over a successful run are
`assignVoice gender 0, assignVoice gender 1, …` for the key's cached gender
— i.e. `pool[gender][j mod poolSize]` for `j = 0, 1, …, N-1` in encounter
order — and the recorded rotation indices are exactly `0, 1, …, N-1`:
rotation starts at 0 on the first assignment for the key and increments by
one per assignment. -/
theorem claim_C2 (segs : List Segment) (tr : String → String)
    (detect : ℕ → AstatsOutcome) (key : String) :
    ((assignsFor (dubVideo segs tr detect none).1 key).map (fun e => e.voice) =
      (List.range (assignsFor (dubVideo segs tr detect none).1 key).length).map
        (fun j => assignVoice
          ((lookupKey key (dubVideo segs tr detect none).1.speakerGender).getD
            Gender.male) j)) ∧
    ((assignsFor (dubVideo segs tr detect none).1 key).map (fun e => e.index) =
      List.range (assignsFor (dubVideo segs tr detect none).1 key).length) := by
  have hInv := dubVideo_none_inv segs tr detect
  obtain ⟨h1, h2, h3, h4, h5, h6⟩ := hInv key
  refine ⟨?_, h2⟩
  cases hevs : assignsFor (dubVideo segs tr detect none).1 key with
  | nil => simp [hevs]
  | cons e0 tl =>
    have he0 : e0 ∈ assignsFor (dubVideo segs tr detect none).1 key :=
      hevs ▸ List.mem_cons_self e0 tl
    have hg0 := (h3 e0 he0).1
    have hgetD :
        (lookupKey key (dubVideo segs tr detect none).1.speakerGender).getD
          Gender.male = e0.gender := by
      rw [hg0]
      rfl
    have hvoice : ∀ e ∈ assignsFor (dubVideo segs tr detect none).1 key,
        e.voice = assignVoice e0.gender e.index := by
      intro e he
      have h3e := h3 e he
      have hgg : e.gender = e0.gender := by
        have hx := h3e.1
        rw [hg0] at hx
        exact (Option.some.inj hx).symm
      rw [h3e.2, hgg]
    rw [← hevs, hgetD]
    calc (assignsFor (dubVideo segs tr detect none).1 key).map (fun e => e.voice)
        = (assignsFor (dubVideo segs tr detect none).1 key).map
            (fun e => assignVoice e0.gender e.index) :=
          List.map_congr_left hvoice
      _ = ((assignsFor (dubVideo segs tr detect none).1 key).map
            (fun e => e.index)).map (fun j => assignVoice e0.gender j) := by
          rw [List.map_map]
          rfl
      _ = (List.range
            (assignsFor (dubVideo segs tr detect none).1 key).length).map
            (fun j => assignVoice e0.gender j) := by rw [h2]

/-- C7: over a successful run, each speaker key has at most one
gender-detection event; every voice assignment uses exactly the gender
cached for its key at end of run, and every detection's result is that
cached gender — so a key's gender is detected at most once and every later
segment with the same key reuses it. -/
theorem claim_C7 (segs : List Segment) (tr : String → String)
    (detect : ℕ → AstatsOutcome) (key : String) :
    (detectionsFor (dubVideo segs tr detect none).1 key).length ≤ 1 ∧
    ((dubVideo segs tr detect none).1.assigns).all
      (fun e => decide (lookupKey e.key (dubVideo segs tr detect none).1.speakerGender =
        some e.gender)) = true ∧
    ((dubVideo segs tr detect none).1.detections).all
      (fun d => decide (lookupKey d.key (dubVideo segs tr detect none).1.speakerGender =
        some d.gender)) = true := by
  have hInv := dubVideo_none_inv segs tr detect
  refine ⟨(hInv key).2.2.2.2.1, ?_, ?_⟩
  · rw [List.all_eq_true]
    intro e he
    rw [decide_eq_true_eq]
    exact ((hInv e.key).2.2.1 e (by simp [assignsFor, List.mem_filter, he])).1
  · rw [List.all_eq_true]
    intro d hd
    rw [decide_eq_true_eq]
    exact (hInv d.key).2.2.2.2.2 d (by simp [detectionsFor, List.mem_filter, hd])


/-! ### C4: intermediate files on the success and failure paths -/

theorem entryFile_ne_genderClip (e : Entry) (j : ℕ) :
    entryFile e ≠ FileId.genderClip j := by
  cases e <;> simp [entryFile]

theorem entryFile_ne_concatList (e : Entry) :
    entryFile e ≠ FileId.concatList := by
  cases e <;> simp [entryFile]

theorem entryFile_ne_extracted (e : Entry) :
    entryFile e ≠ FileId.extracted := by
  cases e <;> simp [entryFile]

theorem entryFile_ne_dubbed (e : Entry) : entryFile e ≠ FileId.dubbed := by
  cases e <;> simp [entryFile]

theorem entryFile_ne_output (e : Entry) : entryFile e ≠ FileId.output := by
  cases e <;> simp [entryFile]

theorem filter_ne_genderClip (l : List Entry) (j : ℕ) :
    (FileId.extracted :: l.map entryFile).filter
      (fun f => decide (f ≠ FileId.genderClip j)) =
      FileId.extracted :: l.map entryFile := by
  rw [List.filter_eq_self]
  intro a ha
  rw [decide_eq_true_eq]
  rcases List.mem_cons.mp ha with rfl | ha
  · simp
  · obtain ⟨e, _, rfl⟩ := List.mem_map.mp ha
    exact entryFile_ne_genderClip e j

theorem stepSeg_none_files (tr : String → String) (detect : ℕ → AstatsOutcome)
    (n i : ℕ) (seg : Segment) (st : DubState)
    (h : st.files = FileId.extracted :: st.timeline.map entryFile) :
    (stepSeg tr detect none n i seg st).1.files =
      FileId.extracted :: (stepSeg tr detect none n i seg st).1.timeline.map entryFile := by
  unfold stepSeg
  simp only [reduceCtorEq, and_false, if_false, ite_false]
  by_cases hgap : seg.start - st.lastEnd > 0 <;>
    simp only [hgap, ite_true, ite_false] <;>
    split
  case pos.h_1 g hg =>
    rw [stepTail_none_fst]
    simp [h, entryFile]
  case pos.h_2 hg =>
    rw [stepTail_none_fst]
    simp only [List.filter_append, h]
    rw [filter_ne_genderClip]
    simp [entryFile]
  case neg.h_1 g hg =>
    rw [stepTail_none_fst]
    simp [h, entryFile]
  case neg.h_2 hg =>
    rw [stepTail_none_fst]
    simp only [List.filter_append, h]
    rw [filter_ne_genderClip]
    simp [entryFile]


theorem runSegs_none_files (tr : String → String) (detect : ℕ → AstatsOutcome)
    (n : ℕ) :
    ∀ (l : List Segment) (i : ℕ) (st : DubState),
      st.files = FileId.extracted :: st.timeline.map entryFile →
      (runSegs tr detect none n i l st).1.files =
        FileId.extracted ::
          (runSegs tr detect none n i l st).1.timeline.map entryFile := by
  intro l
  induction l with
  | nil => intro i st h; simpa [runSegs] using h
  | cons seg rest ih =>
    intro i st h
    rw [runSegs_none_cons]
    exact ih _ _ (stepSeg_none_files tr detect n i seg st h)

theorem foldl_filter_eq (es : List Entry) :
    ∀ fs : List FileId,
      es.foldl (fun acc e => acc.filter (fun f => decide (f ≠ entryFile e))) fs =
        fs.filter (fun f => es.all (fun e => decide (f ≠ entryFile e))) := by
  induction es with
  | nil => intro fs; simp
  | cons e es ih =>
    intro fs
    rw [List.foldl_cons, ih, List.filter_filter]
    congr 1
    funext a
    rw [List.all_cons]
    exact Bool.and_comm _ _

theorem map_entryFile_filter_all (tl : List Entry) :
    (tl.map entryFile).filter
      (fun f => tl.all (fun e => decide (f ≠ entryFile e))) = [] := by
  rw [List.filter_eq_nil_iff]
  intro a ha
  obtain ⟨e, he, rfl⟩ := List.mem_map.mp ha
  intro hall
  rw [List.all_eq_true] at hall
  have := hall e he
  rw [decide_eq_true_eq] at this
  exact this rfl

theorem filter_map_entryFile_ne (tl : List Entry) (x : FileId)
    (hx : ∀ e : Entry, entryFile e ≠ x) :
    (tl.map entryFile).filter (fun f => decide (f ≠ x)) = tl.map entryFile := by
  rw [List.filter_eq_self]
  intro a ha
  obtain ⟨e, _, rfl⟩ := List.mem_map.mp ha
  simp [hx e]

theorem finishRun_files (st2 : DubState)
    (h : st2.files = FileId.extracted :: st2.timeline.map entryFile) :
    (finishRun st2).files = [FileId.output] := by
  have hc : (st2.timeline.map entryFile).filter
      (fun f => decide (f ≠ FileId.concatList)) = st2.timeline.map entryFile :=
    filter_map_entryFile_ne _ _ entryFile_ne_concatList
  have he : (st2.timeline.map entryFile).filter
      (fun f => decide (f ≠ FileId.extracted)) = st2.timeline.map entryFile :=
    filter_map_entryFile_ne _ _ entryFile_ne_extracted
  have hd : (st2.timeline.map entryFile).filter
      (fun f => decide (f ≠ FileId.dubbed)) = st2.timeline.map entryFile :=
    filter_map_entryFile_ne _ _ entryFile_ne_dubbed
  have hall : (st2.timeline.map entryFile).filter
      (fun f => st2.timeline.all (fun e => decide (f ≠ entryFile e))) = [] :=
    map_entryFile_filter_all _
  have hout : st2.timeline.all (fun e => decide (FileId.output ≠ entryFile e)) =
      true := by
    rw [List.all_eq_true]
    intro e _
    rw [decide_eq_true_eq]
    exact Ne.symm (entryFile_ne_output e)
  have h1 : (st2.timeline.map entryFile).filter
      (fun a => (st2.timeline.all fun e => !decide (a = entryFile e)) &&
        (!decide (a = FileId.dubbed) && (!decide (a = FileId.extracted) &&
          !decide (a = FileId.concatList)))) = [] := by
    rw [List.filter_eq_nil_iff]
    intro a ha
    obtain ⟨e, hemem, rfl⟩ := List.mem_map.mp ha
    simp only [Bool.and_eq_true, List.all_eq_true]
    rintro ⟨hall2, -⟩
    have hx := hall2 e hemem
    simp at hx
  have hout2 : (st2.timeline.all fun e => !decide (FileId.output = entryFile e)) =
      true := by
    rw [List.all_eq_true]
    intro e _
    simp [Ne.symm (entryFile_ne_output e)]
  simp only [finishRun]
  rw [h, foldl_filter_eq]
  simp [hc, he, hd, hall, hout, List.filter_append, h1, hout2]

theorem dubVideo_none_files (segs : List Segment) (tr : String → String)
    (detect : ℕ → AstatsOutcome) :
    (dubVideo segs tr detect none).1.files = [FileId.output] := by
  rw [dubVideo_none_eq]
  exact finishRun_files _
    (runSegs_none_files tr detect segs.length segs 0
      { initState with
        files := [FileId.extracted]
        progress := [5] ++ [15] }
      (by simp [initState]))


theorem stepSeg_concat_eq_none (tr : String → String)
    (detect : ℕ → AstatsOutcome) (n i : ℕ) (seg : Segment) (st : DubState) :
    stepSeg tr detect (some FailPoint.concat) n i seg st =
      stepSeg tr detect none n i seg st := by
  unfold stepSeg stepTail
  simp only [Option.some.injEq, reduceCtorEq, and_false, if_false, ite_false]

theorem runSegs_concat_eq_none (tr : String → String)
    (detect : ℕ → AstatsOutcome) (n : ℕ) :
    ∀ (l : List Segment) (i : ℕ) (st : DubState),
      runSegs tr detect (some FailPoint.concat) n i l st =
        runSegs tr detect none n i l st := by
  intro l
  induction l with
  | nil => intro i st; rfl
  | cons seg rest ih =>
    intro i st
    rw [runSegs, runSegs, stepSeg_concat_eq_none]
    cases hs : stepSeg tr detect none n i seg st with
    | mk st' b =>
      cases b
      · simpa using ih (i + 1) st'
      · simp

theorem dubVideo_concat_files (segs : List Segment) (tr : String → String)
    (detect : ℕ → AstatsOutcome) :
    (dubVideo segs tr detect (some FailPoint.concat)).2 = true ∧
    (dubVideo segs tr detect (some FailPoint.concat)).1.files =
      (FileId.extracted ::
        (dubVideo segs tr detect (some FailPoint.concat)).1.timeline.map entryFile) ++
        [FileId.concatList] := by
  have hfiles := runSegs_none_files tr detect segs.length segs 0
    { initState with
      files := [FileId.extracted]
      progress := [5] ++ [15] }
    (by simp [initState])
  have hsnd := runSegs_none_snd tr detect segs.length segs 0
    { initState with
      files := [FileId.extracted]
      progress := [5] ++ [15] }
  unfold dubVideo
  simp only [Option.some.injEq, reduceCtorEq, if_false, ite_false]
  rw [runSegs_concat_eq_none]
  cases hr : runSegs tr detect none segs.length 0 segs
      { initState with
        files := [FileId.extracted]
        progress := [5] ++ [15] } with
  | mk st2 b =>
    rw [hr] at hfiles hsnd
    simp only at hfiles hsnd
    subst hsnd
    simp [hfiles]

/-- C4 as amended: on the all-successful run every intermediate file is
removed — only the published output file remains — but on a failing run no
cleanup occurs: when the concatenation call rejects, the extracted audio,
every timeline clip and the concat list file all still exist when the job is
left failed. -/
theorem claim_C4 (segs : List Segment) (tr : String → String)
    (detect : ℕ → AstatsOutcome) :
    ((dubVideo segs tr detect none).2 = false ∧
     (dubVideo segs tr detect none).1.files = [FileId.output]) ∧
    ((dubVideo segs tr detect (some FailPoint.concat)).2 = true ∧
     (dubVideo segs tr detect (some FailPoint.concat)).1.files =
       (FileId.extracted ::
         (dubVideo segs tr detect (some FailPoint.concat)).1.timeline.map entryFile) ++
         [FileId.concatList]) :=
  ⟨⟨by rw [dubVideo_none_eq], dubVideo_none_files segs tr detect⟩,
   dubVideo_concat_files segs tr detect⟩

/-- C4 counterexample to the claim as stated: a concrete run in which the
concatenation stage rejects leaves the job failed with the extracted-audio
intermediate file still present — the success-path cleanup did not occur. -/
theorem claim_C4_counterexample :
    (dubVideo [] (fun s => s) (fun _ => AstatsOutcome.success [])
      (some FailPoint.concat)).2 = true ∧
    FileId.extracted ∈ (dubVideo [] (fun s => s) (fun _ => AstatsOutcome.success [])
      (some FailPoint.concat)).1.files ∧
    (dubVideo [] (fun s => s) (fun _ => AstatsOutcome.success [])
      (some FailPoint.concat)).1.files ≠ [FileId.output] := by
  decide

end Dubbing